import Mathlib

/-!
Verification development for the DustData per-collection storage core
(`src/collection/mod.rs`, `src/collection/storage.rs`, `src/collection/wal.rs`,
`src/bloom/mod.rs`).

Shallow embedding conventions:
* Rust `HashMap` / `BTreeMap` values are modelled as association lists with
  replace-on-insert semantics (`alSet`, `alGet`, `alErase`).
* The external `farmhash::hash64_with_seed` function is opaque to the engine
  and is passed everywhere as a parameter `H : String → Nat → Nat`
  (key, seed ↦ 64-bit hash value).
* The external `bincode` codec is opaque; only the byte length of a serialized
  value matters to the engine's offset bookkeeping, so it is passed as a
  parameter (`valLen`, `logLen`).
* Machine integers (`u64`, `usize`) are modelled as `Nat`; the only arithmetic
  the engine performs on them (lengths, offsets, `%`) cannot overflow in the
  claims considered, so no `% 2^64` reduction is inserted.
* File-system state (data chunk files, WAL log chunk files, the flushed WAL
  index) is explicit in the state records; `panic!` in the Rust source is a
  distinct `ApiResult.panics` outcome.
-/

/-! ### Association-list maps (model of `HashMap` / `BTreeMap`) -/

def alGet {κ β : Type} [DecidableEq κ] (k : κ) : List (κ × β) → Option β
  | [] => none
  | (k', v) :: rest => if k' = k then some v else alGet k rest

def alErase {κ β : Type} [DecidableEq κ] (k : κ) : List (κ × β) → List (κ × β)
  | [] => []
  | (k', v) :: rest => if k' = k then alErase k rest else (k', v) :: alErase k rest

/-- `map.insert k v` (the new binding replaces any old binding of `k`). -/
def alSet {κ β : Type} [DecidableEq κ] (k : κ) (v : β) (l : List (κ × β)) : List (κ × β) :=
  (k, v) :: alErase k l

/-! ### Bloom filter (`src/bloom/mod.rs`)

`BloomFilter::new` derives the byte count `m` and the hash count `k` from the
floating-point formulas `num_bits` / `num_hashes`; floating point is outside
the embedding, so a filter is described by an arbitrary byte count and hash
count, and theorems quantify over them (with `1 ≤ m`, `1 ≤ k` where the real
formulas guarantee positivity). -/

/-- `self.bitvec[pos / 8] |= 1 << (pos % 8)` on one byte. -/
def byteSet (b s : Nat) : Nat := b ||| (1 <<< s)

/-- `self.bitvec[pos / 8] &= !(1 << (pos % 8))` on one byte (`!` is 8-bit not). -/
def byteClear (b s : Nat) : Nat := b &&& (255 ^^^ (1 <<< s))

/-- `(1 << (pos % 8)) & self.bitvec[pos / 8] == 0` is the negation of this test. -/
def bitGet (b s : Nat) : Bool := (1 <<< s) &&& b != 0

structure BloomFilter where
  bitvec : List Nat
  hashes : Nat
deriving DecidableEq

def BloomFilter.setPos (bv : List Nat) (pos : Nat) : List Nat :=
  bv.set (pos / 8) (byteSet (bv.getD (pos / 8) 0) (pos % 8))

def BloomFilter.clearPos (bv : List Nat) (pos : Nat) : List Nat :=
  bv.set (pos / 8) (byteClear (bv.getD (pos / 8) 0) (pos % 8))

def BloomFilter.testPos (bv : List Nat) (pos : Nat) : Bool :=
  bitGet (bv.getD (pos / 8) 0) (pos % 8)

/-- `BloomFilter::insert`. -/
def BloomFilter.insert (H : String → Nat → Nat) (bf : BloomFilter) (value : String) :
    BloomFilter :=
  let newbv := (List.range bf.hashes).foldl
    (fun bv i => BloomFilter.setPos bv (H value i % (bv.length * 8))) bf.bitvec
  { bf with bitvec := newbv }

/-- `BloomFilter::contains`. -/
def BloomFilter.contains (H : String → Nat → Nat) (bf : BloomFilter) (value : String) :
    Bool :=
  (List.range bf.hashes).all (fun i =>
    BloomFilter.testPos bf.bitvec (H value i % (bf.bitvec.length * 8)))

/-- `BloomFilter::remove`. -/
def BloomFilter.remove (H : String → Nat → Nat) (bf : BloomFilter) (value : String) :
    BloomFilter :=
  let newbv := (List.range bf.hashes).foldl
    (fun bv i => BloomFilter.clearPos bv (H value i % (bv.length * 8))) bf.bitvec
  { bf with bitvec := newbv }

/-- `BloomFilter::clear`. -/
def BloomFilter.clear (bf : BloomFilter) : BloomFilter :=
  { bf with bitvec := List.replicate bf.bitvec.length 0 }

/-- The bit positions probed for `value` (same list in insert/contains/remove). -/
def BloomFilter.positions (H : String → Nat → Nat) (bf : BloomFilter) (value : String) :
    List Nat :=
  (List.range bf.hashes).map (fun i => H value i % (bf.bitvec.length * 8))

/-! Folding over position lists -/

def setAll (ps : List Nat) (bv : List Nat) : List Nat :=
  ps.foldl BloomFilter.setPos bv

def clearAll (ps : List Nat) (bv : List Nat) : List Nat :=
  ps.foldl BloomFilter.clearPos bv

/-! ### Errors and call outcomes (`src/error.rs`)

`Error::IoError` carries a `std::io::Error`; only a detail string is kept.
A `panic!` or `.unwrap()` failure in the source is not a value of `Error`;
it is modelled as the distinct outcome `ApiResult.panics`. -/

inductive Error
  | IoError (detail : String)
  | Deadlock
  | DatabaseLocked
  | AlreadyExists (key : String)
  | NotFound (key : String)
  | CorruptedData (detail : String)
  | Other (detail : String)
deriving DecidableEq

inductive ApiResult (α : Type)
  | ok (a : α)
  | err (e : Error)
  | panics (msg : String)
deriving DecidableEq

/-- `true` iff the call returned (success or a typed `Error`) rather than
panicking. -/
def ApiResult.isTyped {α : Type} : ApiResult α → Bool
  | .panics _ => false
  | _ => true

/-! ### Storage (`src/collection/storage.rs`) -/

structure DataChunk where
  page : Nat
  id : Nat
deriving DecidableEq

structure IndexEntry where
  offset : Nat
  data_chunk : DataChunk
deriving DecidableEq

/-- One on-disk chunk file: its byte length and the records it holds
(record byte offset ↦ decoded payload). The payload bytes themselves are
opaque (external `bincode` codec); a record occupies `8 + payload length`
bytes (`len_le_u64 || bytes`). -/
structure DataFile (β : Type) where
  length : Nat
  records : List (Nat × β)
deriving DecidableEq

/-- `Data_{page}_{id}.db`. -/
def dataChunkFilename (page id : Nat) : String :=
  "Data_" ++ toString page ++ "_" ++ toString id ++ ".db"

structure StorageState (V : Type) where
  filter : BloomFilter
  index : List (String × IndexEntry)
  filePage : Nat
  fileId : Nat
  files : List ((Nat × Nat) × DataFile V)
deriving DecidableEq

def getFile {V : Type} (files : List ((Nat × Nat) × DataFile V)) (page id : Nat) :
    DataFile V :=
  (alGet (page, id) files).getD { length := 0, records := [] }

/-- `self.file.len()`: the metadata length of the current write-target chunk. -/
def StorageState.fileLen {V : Type} (s : StorageState V) : Nat :=
  (getFile s.files s.filePage s.fileId).length

/-- `Storage::serialize_value` emits `len_le_u64(bytes) || bytes`; `valLen` is
the external bincode length of the payload. -/
def segmentLen {V : Type} (valLen : V → Nat) (v : V) : Nat := 8 + valLen v

/-- `self.file.write_all(&segment)`: append one record to the current chunk. -/
def StorageState.appendValue {V : Type} (valLen : V → Nat) (s : StorageState V)
    (value : V) : List ((Nat × Nat) × DataFile V) :=
  let f := getFile s.files s.filePage s.fileId
  alSet (s.filePage, s.fileId)
    { length := f.length + segmentLen valLen value
      records := (f.length, value) :: f.records } s.files

/-- `Storage::contains`. -/
def Storage.contains {V : Type} (H : String → Nat → Nat) (s : StorageState V)
    (key : String) : Bool :=
  BloomFilter.contains H s.filter key

/-- `Storage::insert_tuple`. -/
def Storage.insert_tuple {V : Type} (H : String → Nat → Nat) (valLen : V → Nat)
    (s : StorageState V) (key : String) (value : V) :
    StorageState V × ApiResult Unit :=
  if BloomFilter.contains H s.filter key then
    (s, .err (.AlreadyExists key))
  else
    let filter' := BloomFilter.insert H s.filter key
    let offset := s.fileLen
    let entry : IndexEntry :=
      { offset := offset, data_chunk := { page := s.filePage, id := s.fileId } }
    ({ s with
        filter := filter'
        index := alSet key entry s.index
        files := s.appendValue valLen value }, .ok ())

/-- `Storage::get_tuple_by_offset_and_data_chunk`. Reading a referenced chunk
file that does not exist is `CorruptedData`; an offset that is not a record
start fails to decode and is also surfaced as `CorruptedData`. -/
def Storage.get_tuple_by_offset_and_data_chunk {V : Type} (s : StorageState V)
    (offset : Nat) (dc : DataChunk) : Except Error (Option V) :=
  match alGet (dc.page, dc.id) s.files with
  | none => .error (.CorruptedData
      ("Data chunk " ++ dataChunkFilename dc.page dc.id ++
        " not found, but index contains it"))
  | some f =>
    match alGet offset f.records with
    | some v => .ok (some v)
    | none => .error (.CorruptedData
        ("Corrupted data chunk " ++ dataChunkFilename dc.page dc.id ++
          " and offset " ++ toString offset))

/-- `Storage::get_tuple`. -/
def Storage.get_tuple {V : Type} (s : StorageState V) (key : String) :
    Except Error (Option V) :=
  match alGet key s.index with
  | none => .ok none
  | some entry => Storage.get_tuple_by_offset_and_data_chunk s entry.offset entry.data_chunk

/-- `Storage::update_tuple`. The filter is not touched; the index is repointed
(`self.index.insert(..).unwrap()` panics if the key was a filter false
positive absent from the index); the new record is appended, then the prior
value is read back from the old entry. -/
def Storage.update_tuple {V : Type} (H : String → Nat → Nat) (valLen : V → Nat)
    (s : StorageState V) (key : String) (value : V) :
    StorageState V × ApiResult V :=
  if ¬ Storage.contains H s key then
    (s, .err (.NotFound key))
  else
    let offset := s.fileLen
    let entry : IndexEntry :=
      { offset := offset, data_chunk := { page := s.filePage, id := s.fileId } }
    match alGet key s.index with
    | none => ({ s with index := alSet key entry s.index },
        .panics "called Option::unwrap on a None value")
    | some old =>
      let s1 := { s with
                  index := alSet key entry s.index
                  files := s.appendValue valLen value }
      match Storage.get_tuple_by_offset_and_data_chunk s1 old.offset old.data_chunk with
      | .error e => (s1, .err e)
      | .ok (some oldv) => (s1, .ok oldv)
      | .ok none => (s1, .panics "called Option::unwrap on a None value")

/-- `Storage::remove_tuple`. The filter bits and the index entry are removed
first; only then is the prior value read back (so those removals stand even
when the read fails). -/
def Storage.remove_tuple {V : Type} (H : String → Nat → Nat)
    (s : StorageState V) (key : String) : StorageState V × ApiResult V :=
  if ¬ Storage.contains H s key then
    (s, .err (.NotFound key))
  else
    let filter' := BloomFilter.remove H s.filter key
    match alGet key s.index with
    | none => ({ s with filter := filter', index := alErase key s.index },
        .panics "called Option::unwrap on a None value")
    | some entry =>
      let s1 := { s with filter := filter', index := alErase key s.index }
      match Storage.get_tuple_by_offset_and_data_chunk s1 entry.offset entry.data_chunk with
      | .error e => (s1, .err e)
      | .ok (some v) => (s1, .ok v)
      | .ok none => (s1, .panics "called Option::unwrap on a None value")

/-- `Storage::clear`: clear the filter and the index (chunk files stay). -/
def Storage.clear {V : Type} (s : StorageState V) : StorageState V × ApiResult Unit :=
  ({ s with filter := BloomFilter.clear s.filter, index := [] }, .ok ())

/-- `Storage::data_chunk`: at open, scan for the smallest `(page, id)` whose
file is missing or under `max_data_chunk_size`. `fileSizes page id` is the
on-disk size of `Data_{page}_{id}.db` (`none` when the file does not exist).
The source loop is unbounded; `fuel` bounds the number of files scanned. -/
def Storage.data_chunk (fileSizes : Nat → Nat → Option Nat)
    (maxDataChunkSize maxDataChunks : Nat) : Nat → Nat → Nat → Nat × Nat
  | 0, page, id => (page, id)
  | Nat.succ fuel, page, id =>
    match fileSizes page id with
    | none => (page, id)
    | some len =>
      if len < maxDataChunkSize then (page, id)
      else if id = maxDataChunks - 1 then
        Storage.data_chunk fileSizes maxDataChunkSize maxDataChunks fuel (page + 1) 0
      else
        Storage.data_chunk fileSizes maxDataChunkSize maxDataChunks fuel page (id + 1)

/-! ### Operations and transactions (`src/collection/mod.rs`) -/

inductive Operation (V : Type)
  | Insert (key : String) (value : V)
  | Update (key : String) (value : V)
  | Delete (key : String)
  | Drop
deriving DecidableEq

inductive TransactionStatus
  | Active
  | Committed
  | RolledBack
  | Aborted
deriving DecidableEq

structure Transaction (V : Type) where
  status : TransactionStatus
  data : List (Operation V)
  tx_id : Nat
deriving DecidableEq

/-- `Transaction::new`. `now` models `get_current_timestamp()` — the system
microsecond clock reading at creation, an input external to the engine. -/
def Transaction.new {V : Type} (now : Nat) : Transaction V :=
  { status := .Active, data := [], tx_id := now }

/-! ### WAL (`src/collection/wal.rs`) -/

inductive WalOperation (V : Type)
  | Insert (key : String) (value : V)
  | Update (key : String) (new_value : V) (old_value : V)
  | Delete (key : String) (value : V)
  | Drop
deriving DecidableEq

structure TransactionLog (V : Type) where
  id : Nat
  data : List (WalOperation V)
deriving DecidableEq

/-- `WalOperation::reverse_operation`. -/
def WalOperation.reverse_operation {V : Type} : WalOperation V → Operation V
  | .Insert key _ => .Delete key
  | .Update key _ old_value => .Update key old_value
  | .Delete key value => .Insert key value
  | .Drop => .Drop

/-- `DustDataLog_{id}`. -/
def logFileName (id : Nat) : String := "DustDataLog_" ++ toString id

structure WalState (V : Type) where
  currentId : Nat
  logFiles : List (Nat × DataFile (TransactionLog V))
  memIndex : List (Nat × (Nat × Nat))
  flushedIndex : List (Nat × (Nat × Nat))
deriving DecidableEq

def getLogFile {V : Type} (s : WalState V) (id : Nat) : DataFile (TransactionLog V) :=
  (alGet id s.logFiles).getD { length := 0, records := [] }

/-- The three effects of `Wal::write` (`wal.rs` 139–149), one per source line:
`recordOffset` = `let offset = self.current_file.file.metadata().len()`;
`flushIndex`   = `self.index.write(transaction.id, self.current_file.id, offset)`
                 (inserts into the in-memory WAL index and rewrites
                 `.wal-index-dustdata` — `WALIndex::write`, 304–319);
`appendPayload` = `self.current_file.file.write_all(&bytes)`. -/
inductive WalWriteStep
  | recordOffset
  | flushIndex
  | appendPayload
deriving DecidableEq

def Wal.applyStep {V : Type} (logLen : TransactionLog V → Nat)
    (log : TransactionLog V) :
    WalState V × Option Nat → WalWriteStep → WalState V × Option Nat
  | (s, _), .recordOffset => (s, some (getLogFile s s.currentId).length)
  | (s, off), .flushIndex =>
    let memIndex' := alSet log.id (s.currentId, off.getD 0) s.memIndex
    ({ s with memIndex := memIndex', flushedIndex := memIndex' }, off)
  | (s, off), .appendPayload =>
    let f := getLogFile s s.currentId
    let f' : DataFile (TransactionLog V) :=
      { length := f.length + (8 + logLen log), records := (f.length, log) :: f.records }
    ({ s with logFiles := alSet s.currentId f' s.logFiles }, off)

/-- The order in which `Wal::write` performs its three effects in the source. -/
def Wal.writeOrder : List WalWriteStep := [.recordOffset, .flushIndex, .appendPayload]

/-- Modelled from the spec (§4.4 `write`): the order the spec claims —
record the offset, append the length-prefixed payload, then update and flush
the WAL index. For comparison with `Wal.writeOrder`. -/
def Wal.writeOrderSpec : List WalWriteStep := [.recordOffset, .appendPayload, .flushIndex]

/-- `Wal::write`: fold the three effects in source order. (`logLen` is the
external bincode length of the serialized `TransactionLog`; a record occupies
`8 + logLen log` bytes.) -/
def Wal.write {V : Type} (logLen : TransactionLog V → Nat) (s : WalState V)
    (log : TransactionLog V) : WalState V :=
  (Wal.writeOrder.foldl (Wal.applyStep logLen log) (s, none)).1

/-- `Wal::read` composed with `Wal::read_by_offset_and_log_chunk`. A missing
log chunk referenced by the index is `CorruptedData`; an offset that is not a
record start fails to decode and is modelled as `CorruptedData` too. -/
def Wal.read {V : Type} (s : WalState V) (tx_id : Nat) :
    Except Error (Option (TransactionLog V)) :=
  match alGet tx_id s.memIndex with
  | none => .ok none
  | some (log_chunk, offset) =>
    match alGet log_chunk s.logFiles with
    | none => .error (.CorruptedData
        ("WAL Log " ++ logFileName log_chunk ++ " not found, but wal index contains it"))
    | some f =>
      match alGet offset f.records with
      | some log => .ok (some log)
      | none => .error (.CorruptedData
          ("Corrupted wal log " ++ logFileName log_chunk ++ " and offset " ++
            toString offset))

/-- `Wal::revert`. `now` models the `get_current_timestamp()` call inside the
`Transaction::new()` it performs. -/
def Wal.revert {V : Type} (now : Nat) (s : WalState V) (tx_id : Nat) :
    Except Error (Transaction V) :=
  match Wal.read s tx_id with
  | .error e => .error e
  | .ok none => .ok (Transaction.new now)
  | .ok (some log) =>
    .ok { Transaction.new (V := V) now with
          data := log.data.map WalOperation.reverse_operation }

/-- `WALIndex::get_head`. -/
def WALIndex.get_head {V : Type} (s : WalState V) : Option Nat :=
  (s.memIndex.map Prod.fst).max?

/-! ### Collection / transaction coordinator (`src/collection/mod.rs`) -/

structure CollState (V : Type) where
  memtable : List (String × V)
  storage : StorageState V
  wal : WalState V
deriving DecidableEq

/-- One iteration of the loop in `Collection::execute_operation`
(`mod.rs` 207–255). Note the memtable is mutated *before* the storage call in
every arm, so a failing storage call leaves the memtable already changed. -/
def Collection.executeOne {V : Type} (H : String → Nat → Nat) (valLen : V → Nat)
    (s : CollState V) : Operation V → CollState V × ApiResult (WalOperation V)
  | .Insert key value =>
    let memtable' := alSet key value s.memtable
    match Storage.insert_tuple H valLen s.storage key value with
    | (st', .ok _) =>
      ({ s with memtable := memtable', storage := st' }, .ok (.Insert key value))
    | (st', .err e) => ({ s with memtable := memtable', storage := st' }, .err e)
    | (st', .panics m) => ({ s with memtable := memtable', storage := st' }, .panics m)
  | .Delete key =>
    let memtable' := alErase key s.memtable
    match Storage.remove_tuple H s.storage key with
    | (st', .ok old_value) =>
      ({ s with memtable := memtable', storage := st' }, .ok (.Delete key old_value))
    | (st', .err e) => ({ s with memtable := memtable', storage := st' }, .err e)
    | (st', .panics m) => ({ s with memtable := memtable', storage := st' }, .panics m)
  | .Update key value =>
    let memtable' := alSet key value s.memtable
    match Storage.update_tuple H valLen s.storage key value with
    | (st', .ok old_value) =>
      ({ s with memtable := memtable', storage := st' },
        .ok (.Update key value old_value))
    | (st', .err e) => ({ s with memtable := memtable', storage := st' }, .err e)
    | (st', .panics m) => ({ s with memtable := memtable', storage := st' }, .panics m)
  | .Drop =>
    match Storage.clear s.storage with
    | (st', .ok _) => ({ s with memtable := [], storage := st' }, .ok .Drop)
    | (st', .err e) => ({ s with memtable := [], storage := st' }, .err e)
    | (st', .panics m) => ({ s with memtable := [], storage := st' }, .panics m)

/-- `Collection::execute_operation`: run the operations in order, building the
parallel `WalOperation` list; the `?` on each storage call stops at the first
failure, keeping the mutations made so far. -/
def Collection.execute_operation {V : Type} (H : String → Nat → Nat)
    (valLen : V → Nat) (s : CollState V) :
    List (Operation V) → CollState V × ApiResult (List (WalOperation V))
  | [] => (s, .ok [])
  | op :: rest =>
    match Collection.executeOne H valLen s op with
    | (s', .ok w) =>
      match Collection.execute_operation H valLen s' rest with
      | (s'', .ok ws) => (s'', .ok (w :: ws))
      | (s'', .err e) => (s'', .err e)
      | (s'', .panics m) => (s'', .panics m)
    | (s', .err e) => (s', .err e)
    | (s', .panics m) => (s', .panics m)

/-- `Collection::commit`. An already-committed transaction hits
`panic!("Transaction already committed")`. The `try_write` deadlock detection
concerns cross-thread interleaving and is not modelled (single-thread run). -/
def Collection.commit {V : Type} (H : String → Nat → Nat) (valLen : V → Nat)
    (logLen : TransactionLog V → Nat) (s : CollState V) (tx : Transaction V) :
    CollState V × Transaction V × ApiResult Unit :=
  if tx.status = .Committed then
    (s, tx, .panics "Transaction already committed")
  else
    match Collection.execute_operation H valLen s tx.data with
    | (s', .ok wal_operations) =>
      let transaction_log : TransactionLog V := { id := tx.tx_id, data := wal_operations }
      let s'' := { s' with wal := Wal.write logLen s'.wal transaction_log }
      (s'', { tx with status := .Committed }, .ok ())
    | (s', .err e) => (s', tx, .err e)
    | (s', .panics m) => (s', tx, .panics m)

/-- `Collection::abort_transaction`. -/
def Collection.abort_transaction {V : Type} (tx : Transaction V) :
    Transaction V × ApiResult Unit :=
  if tx.status = .Committed then
    (tx, .panics "Transaction already committed")
  else
    ({ tx with status := .Aborted }, .ok ())

/-- `Collection::rollback_transaction`. `now` models the timestamp read by the
`Transaction::new()` inside `Wal::revert`. -/
def Collection.rollback_transaction {V : Type} (H : String → Nat → Nat)
    (valLen : V → Nat) (logLen : TransactionLog V → Nat) (now : Nat)
    (s : CollState V) (tx : Transaction V) :
    CollState V × Transaction V × ApiResult (Transaction V) :=
  match tx.status with
  | .RolledBack => (s, tx, .panics "Transaction already rolled back")
  | .Active => (s, tx, .panics "Transaction not committed")
  | .Aborted => (s, tx, .panics "Transaction aborted")
  | .Committed =>
    match Wal.revert now s.wal tx.tx_id with
    | .error e => (s, tx, .err e)
    | .ok rollback_tx =>
      match Collection.commit H valLen logLen s rollback_tx with
      | (s', rtx', .ok _) => (s', { tx with status := .RolledBack }, .ok rtx')
      | (s', _, .err e) => (s', tx, .err e)
      | (s', _, .panics m) => (s', tx, .panics m)

/-- `Collection::contains`. -/
def Collection.contains {V : Type} (H : String → Nat → Nat) (s : CollState V)
    (key : String) : Bool :=
  Storage.contains H s.storage key

/-- `Collection::get`. -/
def Collection.get {V : Type} (H : String → Nat → Nat) (s : CollState V)
    (key : String) : Except Error (Option V) :=
  if ¬ Collection.contains H s key then .ok none
  else
    match alGet key s.memtable with
    | some value => .ok (some value)
    | none =>
      match Storage.get_tuple s.storage key with
      | .error e => .error e
      | .ok (some value) => .ok (some value)
      | .ok none => .ok none

/-- A freshly created collection over an empty data directory
(`Collection::new` → `Storage::new` + `Wal::new`): empty memtable, empty index,
all-zero filter, data chunk `(0,0)` and log chunk `0` created empty, empty WAL
index flushed to disk. `m`/`hk` are the filter byte and hash counts
`BloomFilter::new(0.01, 8)` computes through its floating-point formulas
(both positive for those inputs). -/
def freshState (V : Type) (m hk : Nat) : CollState V :=
  { memtable := []
    storage :=
      { filter := { bitvec := List.replicate m 0, hashes := hk }
        index := []
        filePage := 0
        fileId := 0
        files := [((0, 0), { length := 0, records := [] })] }
    wal :=
      { currentId := 0
        logFiles := [(0, { length := 0, records := [] })]
        memIndex := []
        flushedIndex := [] } }

/-- A caller committing a list of transactions in order (`tx_id`, operation
list); each is started `Active` as `Collection::start` does. The second
component is `true` iff every commit returned `Ok`. -/
def commitList {V : Type} (H : String → Nat → Nat) (valLen : V → Nat)
    (logLen : TransactionLog V → Nat) (s : CollState V) :
    List (Nat × List (Operation V)) → CollState V × Bool
  | [] => (s, true)
  | (txid, ops) :: rest =>
    let c := Collection.commit H valLen logLen s
      { status := .Active, data := ops, tx_id := txid }
    let r := commitList H valLen logLen c.1 rest
    (r.1, (match c.2.2 with | .ok _ => true | _ => false) && r.2)

/-- Successive `start()` calls observing the clock readings `clocks`
(one `Transaction::new` per reading). -/
def startSequence (V : Type) (clocks : List Nat) : List (Transaction V) :=
  clocks.map Transaction.new

deriving instance DecidableEq for Except

/-! ### Reference functions and concrete instances used by the claims -/

/-- Modelled from the spec (P1, claim C2): one operation's effect on "the last
value written for `key`" — an Insert/Update of `key` writes its value, a
Delete of `key` or a Drop clears it, anything else leaves it. -/
def stepWrite {V : Type} (key : String) (acc : Option V) : Operation V → Option V
  | .Insert k v => if k = key then some v else acc
  | .Update k v => if k = key then some v else acc
  | .Delete k => if k = key then none else acc
  | .Drop => none

/-- Modelled from the spec (P1, claim C2): the last value written for `key`
by a sequence of operations (`none` when `key` was never written or was
deleted/dropped last). -/
def lastWrite {V : Type} (key : String) (ops : List (Operation V)) (acc : Option V) :
    Option V :=
  ops.foldl (stepWrite key) acc

/-- Data-chunk file sizes as `Storage::data_chunk` would observe them on disk
for a given chunk-file map (`none` = file does not exist). -/
def sizesOf {V : Type} (files : List ((Nat × Nat) × DataFile V)) (page id : Nat) :
    Option Nat :=
  (alGet (page, id) files).map DataFile.length

/-- Concrete stand-in for the opaque 64-bit hash in closed witness runs. -/
def exH : String → Nat → Nat := fun _ i => i

/-- Concrete colliding hash for the filter-unsoundness counterexample:
the probe positions of "a" are bits 0 and 1 and those of "b" are bits 1 and 2
(two hash rounds, one byte), sharing bit 1. -/
def exHc : String → Nat → Nat := fun s i => if s = "a" then i else i + 1

/-- Concrete stand-in for the opaque bincode value length. -/
def exValLen : String → Nat := String.length

/-- Concrete stand-in for the opaque bincode length of a serialized
`TransactionLog`. -/
def exLogLen : TransactionLog String → Nat := fun log => 16 + log.data.length

/-- A fresh collection over `String` values with a 1-byte, 1-hash filter. -/
def exFresh : CollState String := freshState String 1 1

/-- A fresh collection over `String` values with a 1-byte, 2-hash filter. -/
def exFresh2 : CollState String := freshState String 1 2

/-- A concrete logged transaction exercising all four `WalOperation` forms. -/
def exLog : TransactionLog String :=
  { id := 5
    data := [.Insert "k" "v", .Update "k" "b" "a", .Delete "d" "w", .Drop] }

/-- A WAL state whose index and log chunk 0 hold `exLog` at offset 0. -/
def exWal : WalState String :=
  { currentId := 0
    logFiles := [(0, { length := 40, records := [(0, exLog)] })]
    memIndex := [(5, (0, 0))]
    flushedIndex := [(5, (0, 0))] }

/-- A small transaction log used by the WAL-write-order runs. -/
def exLog2 : TransactionLog String := { id := 7, data := [.Drop] }

/-- A collection state whose index references a data chunk that is missing
from the file system (as after a reopen over a damaged directory). -/
def exBroken : CollState String :=
  { memtable := [("k", "v")]
    storage :=
      { filter := { bitvec := [255], hashes := 1 }
        index := [("k", { offset := 0, data_chunk := { page := 0, id := 0 } })]
        filePage := 0
        fileId := 0
        files := [] }
    wal := exFresh.wal }

/-- Concrete hash giving disjoint probe positions: "a" probes bits 0,1 and
every other key probes bits 4,5 (two hash rounds, one byte). -/
def exHd : String → Nat → Nat := fun s i => if s = "a" then i else i + 4

/-! ### Lemmas and claim theorems -/

theorem alGet_alErase {κ β : Type} [DecidableEq κ] (k k' : κ) (l : List (κ × β)) :
    alGet k' (alErase k l) = if k' = k then none else alGet k' l := by
  induction l with
  | nil => simp [alErase, alGet]
  | cons p rest ih =>
    rcases p with ⟨a, b⟩
    by_cases h1 : a = k <;> by_cases h2 : k' = k <;> by_cases h3 : a = k' <;>
      simp_all [alErase, alGet]

theorem alGet_alSet_self {κ β : Type} [DecidableEq κ] (k : κ) (v : β) (l : List (κ × β)) :
    alGet k (alSet k v l) = some v := by
  simp [alSet, alGet]

theorem alGet_alSet_ne {κ β : Type} [DecidableEq κ] (k k' : κ) (v : β) (l : List (κ × β))
    (h : k' ≠ k) : alGet k' (alSet k v l) = alGet k' l := by
  simp [alSet, alGet, Ne.symm h, alGet_alErase, h]

theorem alGet_alErase_self {κ β : Type} [DecidableEq κ] (k : κ) (l : List (κ × β)) :
    alGet k (alErase k l) = none := by
  simp [alGet_alErase]

theorem alGet_alErase_ne {κ β : Type} [DecidableEq κ] (k k' : κ) (l : List (κ × β))
    (h : k' ≠ k) : alGet k' (alErase k l) = alGet k' l := by
  simp [alGet_alErase, h]

/-! Bit-level lemmas -/

theorem bitGet_eq_testBit (b s : Nat) : bitGet b s = b.testBit s := by
  have h1 : (1 : Nat) <<< s = 2 ^ s := by rw [Nat.shiftLeft_eq, one_mul]
  have h2 : 2 ^ s &&& b = if b.testBit s then 2 ^ s else 0 := by
    cases hb : b.testBit s
    · rw [if_neg (by simp)]
      apply Nat.eq_of_testBit_eq
      intro i
      rw [Nat.testBit_land, Nat.testBit_two_pow, Nat.zero_testBit]
      by_cases hi : s = i
      · subst hi; simp [hb]
      · simp [hi]
    · rw [if_pos rfl]
      apply Nat.eq_of_testBit_eq
      intro i
      rw [Nat.testBit_land, Nat.testBit_two_pow]
      by_cases hi : s = i
      · subst hi; simp [hb]
      · simp [hi]
  rw [bitGet, h1, h2]
  cases hb : b.testBit s
  · simp
  · simp only [if_pos rfl, bne_iff_ne, ne_eq]
    simp [(Nat.two_pow_pos s).ne']

theorem bitGet_byteSet_self (b s : Nat) : bitGet (byteSet b s) s = true := by
  have h1 : (1 : Nat) <<< s = 2 ^ s := by rw [Nat.shiftLeft_eq, one_mul]
  rw [bitGet_eq_testBit, byteSet, h1, Nat.testBit_lor, Nat.testBit_two_pow]
  simp

theorem bitGet_byteSet_mono (b s t : Nat) (h : bitGet b s = true) :
    bitGet (byteSet b t) s = true := by
  rw [bitGet_eq_testBit] at h ⊢
  rw [byteSet, Nat.testBit_lor, h, Bool.true_or]

theorem bitGet_byteClear_ne (b s t : Nat) (hs : s < 8) (hne : s ≠ t) :
    bitGet (byteClear b t) s = bitGet b s := by
  have h1 : (1 : Nat) <<< t = 2 ^ t := by rw [Nat.shiftLeft_eq, one_mul]
  have h255 : (255 : Nat) = 2 ^ 8 - 1 := by norm_num
  rw [bitGet_eq_testBit, bitGet_eq_testBit, byteClear, h1, Nat.testBit_land,
    Nat.testBit_xor, h255, Nat.testBit_two_pow_sub_one, Nat.testBit_two_pow]
  simp [hs, hne.symm]

theorem bitGet_zero (s : Nat) : bitGet 0 s = false := by
  rw [bitGet_eq_testBit, Nat.zero_testBit]

/-! Position-level lemmas -/

theorem length_setPos (bv : List Nat) (p : Nat) :
    (BloomFilter.setPos bv p).length = bv.length := by
  simp [BloomFilter.setPos]

theorem length_clearPos (bv : List Nat) (p : Nat) :
    (BloomFilter.clearPos bv p).length = bv.length := by
  simp [BloomFilter.clearPos]

theorem getD_set_self (l : List Nat) (i v d : Nat) (h : i < l.length) :
    (l.set i v).getD i d = v := by
  simp [List.getD, List.getElem?_set_self', h]

theorem getD_set_ne (l : List Nat) (i j v d : Nat) (h : i ≠ j) :
    (l.set i v).getD j d = l.getD j d := by
  simp [List.getD, List.getElem?_set_ne h]

theorem testPos_setPos_self (bv : List Nat) (p : Nat) (h : p < bv.length * 8) :
    BloomFilter.testPos (BloomFilter.setPos bv p) p = true := by
  have hdiv : p / 8 < bv.length := (Nat.div_lt_iff_lt_mul (by decide)).mpr h
  rw [BloomFilter.testPos, BloomFilter.setPos, getD_set_self _ _ _ _ hdiv]
  exact bitGet_byteSet_self _ _

theorem testPos_setPos_mono (bv : List Nat) (p q : Nat)
    (h : BloomFilter.testPos bv p = true) :
    BloomFilter.testPos (BloomFilter.setPos bv q) p = true := by
  rw [BloomFilter.testPos, BloomFilter.setPos]
  by_cases hb : q / 8 = p / 8
  · rw [hb]
    by_cases hr : p / 8 < bv.length
    · rw [getD_set_self _ _ _ _ hr]
      exact bitGet_byteSet_mono _ _ _ h
    · rw [List.set_eq_of_length_le (Nat.le_of_not_lt hr)]
      exact h
  · rw [getD_set_ne _ _ _ _ _ hb]
    exact h

theorem testPos_clearPos_ne (bv : List Nat) (p q : Nat) (hp : p < bv.length * 8)
    (hne : p ≠ q) :
    BloomFilter.testPos (BloomFilter.clearPos bv q) p = BloomFilter.testPos bv p := by
  rw [BloomFilter.testPos, BloomFilter.clearPos, BloomFilter.testPos]
  by_cases hb : q / 8 = p / 8
  · have hr : q / 8 < bv.length := hb ▸ (Nat.div_lt_iff_lt_mul (by decide)).mpr hp
    rw [← hb, getD_set_self _ _ _ _ hr, hb]
    have hmod : p % 8 ≠ q % 8 := by
      intro hmm
      exact hne (by
        have h1 := Nat.div_add_mod p 8
        have h2 := Nat.div_add_mod q 8
        omega)
    exact bitGet_byteClear_ne _ _ _ (Nat.mod_lt _ (by decide)) hmod
  · rw [getD_set_ne _ _ _ _ _ hb]

theorem testPos_replicate_zero (n p : Nat) :
    BloomFilter.testPos (List.replicate n 0) p = false := by
  rw [BloomFilter.testPos]
  have : (List.replicate n (0 : Nat)).getD (p / 8) 0 = 0 := by
    rw [List.getD_eq_getElem?_getD, List.getElem?_replicate]
    by_cases h : p / 8 < n <;> simp [h]
  rw [this]
  exact bitGet_zero _

theorem length_setAll (ps bv : List Nat) : (setAll ps bv).length = bv.length := by
  induction ps generalizing bv with
  | nil => rfl
  | cons p rest ih => rw [setAll, List.foldl_cons, ← setAll, ih, length_setPos]

theorem length_clearAll (ps bv : List Nat) : (clearAll ps bv).length = bv.length := by
  induction ps generalizing bv with
  | nil => rfl
  | cons p rest ih => rw [clearAll, List.foldl_cons, ← clearAll, ih, length_clearPos]

theorem testPos_setAll_mono (ps bv : List Nat) (p : Nat)
    (h : BloomFilter.testPos bv p = true) :
    BloomFilter.testPos (setAll ps bv) p = true := by
  induction ps generalizing bv with
  | nil => exact h
  | cons q rest ih =>
    rw [setAll, List.foldl_cons, ← setAll]
    exact ih _ (testPos_setPos_mono _ _ _ h)

theorem testPos_setAll_mem (ps bv : List Nat) (p : Nat) (hmem : p ∈ ps)
    (hlt : p < bv.length * 8) :
    BloomFilter.testPos (setAll ps bv) p = true := by
  induction ps generalizing bv with
  | nil => cases hmem
  | cons q rest ih =>
    rw [setAll, List.foldl_cons, ← setAll]
    rcases List.mem_cons.mp hmem with hq | hrest
    · subst hq
      exact testPos_setAll_mono _ _ _ (testPos_setPos_self _ _ hlt)
    · exact ih _ hrest (by rw [length_setPos]; exact hlt)

theorem testPos_clearAll_not_mem (ps bv : List Nat) (p : Nat) (hmem : p ∉ ps)
    (hlt : p < bv.length * 8) :
    BloomFilter.testPos (clearAll ps bv) p = BloomFilter.testPos bv p := by
  induction ps generalizing bv with
  | nil => rfl
  | cons q rest ih =>
    rw [clearAll, List.foldl_cons, ← clearAll]
    have hpq : p ≠ q := fun hh => hmem (hh ▸ List.mem_cons_self q rest)
    rw [ih _ (fun hh => hmem (List.mem_cons_of_mem _ hh))
      (by rw [length_clearPos]; exact hlt)]
    exact testPos_clearPos_ne _ _ _ hlt hpq

/-- The fold inside `BloomFilter::insert` reads `self.bitvec.len()` at each
iteration, but `set` keeps the length, so the fold is `setAll` over the
position list computed with the original length. -/
theorem insert_bitvec_eq (H : String → Nat → Nat) (bf : BloomFilter) (v : String) :
    (BloomFilter.insert H bf v).bitvec = setAll (BloomFilter.positions H bf v) bf.bitvec := by
  rw [BloomFilter.insert, BloomFilter.positions, setAll, List.foldl_map]
  have key : ∀ (L : List Nat) (bv : List Nat), bv.length = bf.bitvec.length →
      L.foldl (fun bv i => BloomFilter.setPos bv (H v i % (bv.length * 8))) bv =
      L.foldl (fun bv i => BloomFilter.setPos bv (H v i % (bf.bitvec.length * 8))) bv := by
    intro L
    induction L with
    | nil => intro bv _; rfl
    | cons i rest ih =>
      intro bv hlen
      rw [List.foldl_cons, List.foldl_cons, hlen]
      exact ih _ (by rw [length_setPos, hlen])
  exact key _ _ rfl

theorem remove_bitvec_eq (H : String → Nat → Nat) (bf : BloomFilter) (v : String) :
    (BloomFilter.remove H bf v).bitvec =
      clearAll (BloomFilter.positions H bf v) bf.bitvec := by
  rw [BloomFilter.remove, BloomFilter.positions, clearAll, List.foldl_map]
  have key : ∀ (L : List Nat) (bv : List Nat), bv.length = bf.bitvec.length →
      L.foldl (fun bv i => BloomFilter.clearPos bv (H v i % (bv.length * 8))) bv =
      L.foldl (fun bv i => BloomFilter.clearPos bv (H v i % (bf.bitvec.length * 8))) bv := by
    intro L
    induction L with
    | nil => intro bv _; rfl
    | cons i rest ih =>
      intro bv hlen
      rw [List.foldl_cons, List.foldl_cons, hlen]
      exact ih _ (by rw [length_clearPos, hlen])
  exact key _ _ rfl

theorem insert_hashes (H : String → Nat → Nat) (bf : BloomFilter) (v : String) :
    (BloomFilter.insert H bf v).hashes = bf.hashes := rfl

theorem remove_hashes (H : String → Nat → Nat) (bf : BloomFilter) (v : String) :
    (BloomFilter.remove H bf v).hashes = bf.hashes := rfl

theorem insert_length (H : String → Nat → Nat) (bf : BloomFilter) (v : String) :
    (BloomFilter.insert H bf v).bitvec.length = bf.bitvec.length := by
  rw [insert_bitvec_eq, length_setAll]

theorem remove_length (H : String → Nat → Nat) (bf : BloomFilter) (v : String) :
    (BloomFilter.remove H bf v).bitvec.length = bf.bitvec.length := by
  rw [remove_bitvec_eq, length_clearAll]

theorem mem_positions_lt (H : String → Nat → Nat) (bf : BloomFilter) (v : String)
    (hm : 1 ≤ bf.bitvec.length) (p : Nat) (hp : p ∈ BloomFilter.positions H bf v) :
    p < bf.bitvec.length * 8 := by
  rw [BloomFilter.positions] at hp
  rcases List.mem_map.mp hp with ⟨i, _, rfl⟩
  exact Nat.mod_lt _ (by omega)

/-- A key just inserted is reported present (for a nonempty bit vector). -/
theorem contains_insert_self (H : String → Nat → Nat) (bf : BloomFilter) (v : String)
    (hm : 1 ≤ bf.bitvec.length) :
    BloomFilter.contains H (BloomFilter.insert H bf v) v = true := by
  rw [BloomFilter.contains, List.all_eq_true]
  intro i hi
  rw [insert_hashes] at hi
  rw [insert_bitvec_eq, length_setAll]
  apply testPos_setAll_mem
  · rw [BloomFilter.positions]
    exact List.mem_map.mpr ⟨i, hi, rfl⟩
  · exact Nat.mod_lt _ (by omega)

/-- Inserting any key never makes a present key absent. -/
theorem contains_insert_mono (H : String → Nat → Nat) (bf : BloomFilter) (v w : String)
    (h : BloomFilter.contains H bf w = true) :
    BloomFilter.contains H (BloomFilter.insert H bf v) w = true := by
  rw [BloomFilter.contains, List.all_eq_true] at h ⊢
  intro i hi
  rw [insert_hashes] at hi
  rw [insert_bitvec_eq, length_setAll]
  exact testPos_setAll_mono _ _ _ (h i hi)

/-- The removal of `k1` keeps `k2` present when the probed bit positions are disjoint. -/
theorem contains_remove_disjoint (H : String → Nat → Nat) (bf : BloomFilter)
    (k1 k2 : String) (hm : 1 ≤ bf.bitvec.length)
    (h : BloomFilter.contains H bf k2 = true)
    (hdisj : ∀ p ∈ BloomFilter.positions H bf k2, p ∉ BloomFilter.positions H bf k1) :
    BloomFilter.contains H (BloomFilter.remove H bf k1) k2 = true := by
  rw [BloomFilter.contains, List.all_eq_true] at h ⊢
  intro i hi
  rw [remove_hashes] at hi
  rw [remove_bitvec_eq, length_clearAll]
  have hmem : H k2 i % (bf.bitvec.length * 8) ∈ BloomFilter.positions H bf k2 :=
    List.mem_map.mpr ⟨i, hi, rfl⟩
  rw [testPos_clearAll_not_mem _ _ _ (hdisj _ hmem)
    (mem_positions_lt H bf k2 hm _ hmem)]
  exact h i hi

/-- A fresh (all-zero) filter with at least one hash contains nothing. -/
theorem contains_fresh_false (H : String → Nat → Nat) (m k : Nat) (v : String)
    (hk : 1 ≤ k) :
    BloomFilter.contains H { bitvec := List.replicate m 0, hashes := k } v = false := by
  rw [BloomFilter.contains]
  rw [← Bool.not_eq_true, List.all_eq_true]
  push_neg
  exact ⟨0, List.mem_range.mpr hk, by simp [testPos_replicate_zero]⟩

/-! ### Claim C6 -/

/-- C6: for every transaction id present in the WAL, `Wal::revert` returns a
transaction whose operation list is exactly the element-wise
`reverse_operation` image of the logged `WalOperation`s, in the same forward
order (a map, not a reversal); the inverse sends `Insert(k,v)` to `Delete(k)`,
`Update(k,new,old)` to `Update(k,old)`, `Delete(k,v)` to `Insert(k,v)`, and
`Drop` to `Drop`. -/
theorem C6_revert_elementwise_inverse {V : Type} (now : Nat) (s : WalState V)
    (tx_id : Nat) (log : TransactionLog V)
    (hread : Wal.read s tx_id = .ok (some log)) :
    (∃ tx, Wal.revert now s tx_id = .ok tx ∧
      tx.data = log.data.map WalOperation.reverse_operation) ∧
    (∀ (k : String) (v : V), WalOperation.reverse_operation (.Insert k v) = .Delete k) ∧
    (∀ (k : String) (nv ov : V),
      WalOperation.reverse_operation (.Update k nv ov) = .Update k ov) ∧
    (∀ (k : String) (v : V),
      WalOperation.reverse_operation (.Delete k v) = .Insert k v) ∧
    WalOperation.reverse_operation (V := V) .Drop = .Drop := by
  have h : Wal.revert now s tx_id = .ok { Transaction.new (V := V) now with
      data := log.data.map WalOperation.reverse_operation } := by
    rw [Wal.revert, hread]
  exact ⟨⟨_, h, rfl⟩, fun k v => rfl, fun k nv ov => rfl, fun k v => rfl, rfl⟩

/-- Witness for C6 at a concrete WAL state holding a four-operation log. -/
theorem C6_revert_elementwise_inverse_witness :
    Wal.read exWal 5 = .ok (some exLog) ∧
    (∃ tx, Wal.revert 9 exWal 5 = .ok tx ∧
      tx.data = exLog.data.map WalOperation.reverse_operation) :=
  ⟨rfl, (C6_revert_elementwise_inverse 9 exWal 5 exLog rfl).1⟩

/-! ### Claim C7 -/

/-- C7 (amended): `contains` and `get` return success or a typed error, and
commit surfaces domain failures as typed errors; but committing an
already-committed transaction, aborting an already-committed transaction, and
rolling back a transaction that is Active, Aborted or RolledBack hit
`panic!` in the source rather than returning a typed error (and `Wal::write`
unwraps I/O errors, which would also panic), contrary to the claim. -/
theorem C7_amended_status_misuse_panics {V : Type} (H : String → Nat → Nat)
    (valLen : V → Nat) (logLen : TransactionLog V → Nat) (now : Nat)
    (s : CollState V) (ops : List (Operation V)) (id : Nat) :
    (Collection.commit H valLen logLen s
        { status := .Committed, data := ops, tx_id := id }).2.2
      = .panics "Transaction already committed" ∧
    (Collection.abort_transaction
        { status := TransactionStatus.Committed, data := ops, tx_id := id }).2
      = .panics "Transaction already committed" ∧
    (Collection.rollback_transaction H valLen logLen now s
        { status := .Active, data := ops, tx_id := id }).2.2
      = .panics "Transaction not committed" ∧
    (Collection.rollback_transaction H valLen logLen now s
        { status := .Aborted, data := ops, tx_id := id }).2.2
      = .panics "Transaction aborted" ∧
    (Collection.rollback_transaction H valLen logLen now s
        { status := .RolledBack, data := ops, tx_id := id }).2.2
      = .panics "Transaction already rolled back" := by
  refine ⟨?_, ?_, rfl, rfl, rfl⟩
  · rw [Collection.commit]
    simp
  · rw [Collection.abort_transaction]
    simp

/-- C7 counterexample: committing an already-committed transaction does not
return success or a typed error — it panics. -/
theorem C7_counterexample :
    ApiResult.isTyped (Collection.commit exH exValLen exLogLen exFresh
      { status := .Committed, data := [], tx_id := 1 }).2.2 = false := by
  decide

/-! ### Claim C8 -/

/-- C8 (amended): `tx_id` is exactly the microsecond clock reading at
creation (`Transaction::new` stores `get_current_timestamp()` unmodified), so
a creation sequence receives strictly increasing ids precisely when the
observed clock readings strictly increase; the code adds no tie-breaking,
and equal readings give equal ids (see the counterexample). -/
theorem C8_txid_follows_clock {V : Type} (clocks : List Nat) (t : Nat)
    (hclk : clocks.Pairwise (· < ·)) :
    (Transaction.new (V := V) t).tx_id = t ∧
    (startSequence V clocks).Pairwise (fun a b => a.tx_id < b.tx_id) := by
  refine ⟨rfl, ?_⟩
  rw [startSequence]
  refine List.Pairwise.map _ ?_ hclk
  intro a b hab
  exact hab

/-- Witness for C8 with strictly increasing clock readings. -/
theorem C8_txid_follows_clock_witness :
    (Transaction.new (V := String) 3).tx_id = 3 ∧
    (startSequence String [3, 7]).Pairwise (fun a b => a.tx_id < b.tx_id) :=
  C8_txid_follows_clock [3, 7] 3 (by decide)

/-- C8 counterexample: two transactions created in sequence within the same
microsecond observe equal clock readings and receive equal ids — the later
id is not strictly greater than the earlier one. -/
theorem C8_counterexample :
    ¬ (startSequence String [5, 5]).Pairwise (fun a b => a.tx_id < b.tx_id) := by
  decide

/-! ### Claim C9 -/

/-- C9: for a tx id with no entry in the WAL index, `Wal::read` returns
`Ok(None)`, `Wal::revert` returns `Ok` of a transaction with an empty
operation list (not an error), and committing that empty rollback transaction
succeeds while applying no operations: memtable and storage are unchanged. -/
theorem C9_missing_txid {V : Type} (H : String → Nat → Nat) (valLen : V → Nat)
    (logLen : TransactionLog V → Nat) (now : Nat) (s : CollState V) (txid : Nat)
    (hmiss : alGet txid s.wal.memIndex = none) :
    Wal.read s.wal txid = .ok none ∧
    Wal.revert now s.wal txid = .ok (Transaction.new now) ∧
    (Collection.commit H valLen logLen s (Transaction.new now)).2.2 = .ok () ∧
    (Collection.commit H valLen logLen s (Transaction.new now)).1.memtable
      = s.memtable ∧
    (Collection.commit H valLen logLen s (Transaction.new now)).1.storage
      = s.storage := by
  have hread : Wal.read s.wal txid = .ok none := by rw [Wal.read, hmiss]
  have hrev : Wal.revert now s.wal txid = .ok (Transaction.new now) := by
    rw [Wal.revert, hread]
  have hcommit : Collection.commit H valLen logLen s (Transaction.new now)
      = ({ s with wal := Wal.write logLen s.wal { id := now, data := [] } },
         { status := .Committed, data := [], tx_id := now }, .ok ()) := by
    rw [Collection.commit]
    simp [Transaction.new, Collection.execute_operation]
  refine ⟨hread, hrev, ?_, ?_, ?_⟩ <;> rw [hcommit]

/-- Witness for C9 on a fresh collection and an id never logged. -/
theorem C9_missing_txid_witness :
    Wal.read exFresh.wal 42 = .ok none ∧
    Wal.revert 7 exFresh.wal 42 = .ok (Transaction.new 7) ∧
    (Collection.commit exH exValLen exLogLen exFresh (Transaction.new 7)).2.2
      = .ok () ∧
    (Collection.commit exH exValLen exLogLen exFresh (Transaction.new 7)).1.memtable
      = exFresh.memtable ∧
    (Collection.commit exH exValLen exLogLen exFresh (Transaction.new 7)).1.storage
      = exFresh.storage :=
  C9_missing_txid exH exValLen exLogLen 7 exFresh 42 rfl

/-! ### Claim C5 -/

/-- C5 (amended): `Wal::write` records the offset, then updates AND flushes
the WAL index (`WALIndex::write` rewrites `.wal-index-dustdata`), and only
then appends the length-prefixed payload — not the order the spec gives.
Consequently there IS a point (between the index flush and the append) where
the flushed WAL index references the transaction while its `TransactionLog`
bytes are not yet in the log file. The payload is in the (unsynced) log file
by the time `write` returns, hence before `commit` returns success. -/
theorem C5_amended_write_order {V : Type} (logLen : TransactionLog V → Nat)
    (s : WalState V) (log : TransactionLog V)
    (hfresh : alGet (getLogFile s s.currentId).length
      (getLogFile s s.currentId).records = none) :
    Wal.writeOrder ≠ Wal.writeOrderSpec ∧
    (let mid := (([WalWriteStep.recordOffset, WalWriteStep.flushIndex]).foldl
        (Wal.applyStep logLen log) (s, none)).1
     let off := (getLogFile s s.currentId).length
     alGet log.id mid.flushedIndex = some (s.currentId, off) ∧
     alGet off (getLogFile mid mid.currentId).records = none) ∧
    (let fin := Wal.write logLen s log
     let off := (getLogFile s s.currentId).length
     alGet off (getLogFile fin fin.currentId).records = some log) := by
  refine ⟨by decide, ⟨?_, ?_⟩, ?_⟩
  · simp only [List.foldl_cons, List.foldl_nil, Wal.applyStep, Option.getD_some]
    exact alGet_alSet_self _ _ _
  · simp only [List.foldl_cons, List.foldl_nil, Wal.applyStep]
    exact hfresh
  · simp only [Wal.write, Wal.writeOrder, List.foldl_cons, List.foldl_nil,
      Wal.applyStep]
    simp only [getLogFile, alGet_alSet_self, Option.getD_some]
    simp [alGet]

/-- Witness for C5 on a fresh WAL state. -/
theorem C5_amended_write_order_witness :
    Wal.writeOrder ≠ Wal.writeOrderSpec ∧
    (let mid := (([WalWriteStep.recordOffset, WalWriteStep.flushIndex]).foldl
        (Wal.applyStep exLogLen exLog2) (exFresh.wal, none)).1
     let off := (getLogFile exFresh.wal exFresh.wal.currentId).length
     alGet exLog2.id mid.flushedIndex = some (exFresh.wal.currentId, off) ∧
     alGet off (getLogFile mid mid.currentId).records = none) ∧
    (let fin := Wal.write exLogLen exFresh.wal exLog2
     let off := (getLogFile exFresh.wal exFresh.wal.currentId).length
     alGet off (getLogFile fin fin.currentId).records = some exLog2) :=
  C5_amended_write_order exLogLen exFresh.wal exLog2 rfl

/-- C5 counterexample: after the first two effects of `Wal::write` (offset,
index update+flush) on a fresh WAL, the flushed WAL index already references
transaction 7 at chunk 0 offset 0, while the log chunk file holds no record
at all — refuting the claim that at no point does the flushed WAL index
reference a transaction whose bytes are not yet in the log file. -/
theorem C5_counterexample :
    let mid := (([WalWriteStep.recordOffset, WalWriteStep.flushIndex]).foldl
      (Wal.applyStep exLogLen exLog2) (exFresh.wal, none)).1
    alGet exLog2.id mid.flushedIndex = some (0, 0) ∧
    (getLogFile mid mid.currentId).records = [] := by
  decide

/-! ### Claim C4 -/

/-- C4 (amended): within an open collection the write target never rolls
over: `insert_tuple` leaves `(page, id)` unchanged by every append (the size
threshold is not consulted on the write path at all), so after exceeding
`max_data_chunk_size` the next append still goes to the same chunk and no
`Data_{page}_{id+1}.db` is created. A new chunk is selected only when the
storage is reopened: `Storage::data_chunk` then scans to the smallest
`(page, id)` whose file is missing or under the threshold — over a directory
whose `Data_0_0.db` is full it selects `(0, 1)`. -/
theorem C4_amended_no_rollover_in_session {V : Type} (H : String → Nat → Nat)
    (valLen : V → Nat) (s : StorageState V) (key : String) (value : V)
    (fileSizes : Nat → Nat → Option Nat) (maxSize maxChunks fuel L : Nat)
    (hL : maxSize ≤ L) (h00 : fileSizes 0 0 = some L) (h01 : fileSizes 0 1 = none)
    (hmc : 2 ≤ maxChunks) :
    (Storage.insert_tuple H valLen s key value).1.filePage = s.filePage ∧
    (Storage.insert_tuple H valLen s key value).1.fileId = s.fileId ∧
    Storage.data_chunk fileSizes maxSize maxChunks (fuel + 2) 0 0 = (0, 1) := by
  refine ⟨?_, ?_, ?_⟩
  · rw [Storage.insert_tuple]
    by_cases h : BloomFilter.contains H s.filter key <;> simp [h]
  · rw [Storage.insert_tuple]
    by_cases h : BloomFilter.contains H s.filter key <;> simp [h]
  · have hnl : ¬ L < maxSize := by omega
    have hnc : ¬ ((0 : Nat) = maxChunks - 1) := by omega
    show Storage.data_chunk fileSizes maxSize maxChunks (Nat.succ (fuel + 1)) 0 0
      = (0, 1)
    rw [Storage.data_chunk, h00]
    simp only [hnl, hnc, if_false]
    show Storage.data_chunk fileSizes maxSize maxChunks (Nat.succ fuel) 0 1 = (0, 1)
    rw [Storage.data_chunk, h01]

/-- Witness for C4 at concrete sizes (`max_data_chunk_size = 10`, a full
`Data_0_0.db` of 10 bytes, no `Data_0_1.db`). -/
theorem C4_amended_no_rollover_in_session_witness :
    (Storage.insert_tuple exH exValLen exFresh.storage "a" "x").1.filePage
      = exFresh.storage.filePage ∧
    (Storage.insert_tuple exH exValLen exFresh.storage "a" "x").1.fileId
      = exFresh.storage.fileId ∧
    Storage.data_chunk (fun p i => if p = 0 ∧ i = 0 then some 10 else none)
      10 10 2 0 0 = (0, 1) :=
  C4_amended_no_rollover_in_session exH exValLen exFresh.storage "a" "x"
    (fun p i => if p = 0 ∧ i = 0 then some 10 else none) 10 10 0 10
    (by omega) (by decide) (by decide) (by omega)

/-- C4 counterexample: with `max_data_chunk_size = 1`, two committed inserts
leave the current chunk file far over the threshold, yet no `Data_0_1.db`
exists and the write target for subsequent appends is still `Data_0_0.db` —
refuting the claimed rollover before the next append. -/
theorem C4_counterexample :
    let run := commitList exHc exValLen exLogLen exFresh
      [(1, [.Insert "a" "x"]), (2, [.Insert "b" "y"])]
    run.2 = true ∧
    1 < run.1.storage.fileLen ∧
    alGet (0, 1) run.1.storage.files = none ∧
    run.1.storage.filePage = 0 ∧
    run.1.storage.fileId = 0 := by
  decide

/-! ### Claim C10 -/

/-- C10: when committing `Delete(k)` fails because the indexed chunk file for
the old value is missing (`CorruptedData`), `k` has already been removed from
the filter bits, from the index, and from the memtable before the error is
returned, and no WAL record is written for the failed transaction — the
removals are not undone. -/
theorem C10_delete_failure_keeps_removals {V : Type} (H : String → Nat → Nat)
    (valLen : V → Nat) (logLen : TransactionLog V → Nat) (s : CollState V)
    (key : String) (tid : Nat) (entry : IndexEntry)
    (hc : Storage.contains H s.storage key = true)
    (hidx : alGet key s.storage.index = some entry)
    (hmiss : alGet (entry.data_chunk.page, entry.data_chunk.id) s.storage.files
      = none) :
    let c := Collection.commit H valLen logLen s
      { status := .Active, data := [.Delete key], tx_id := tid }
    c.2.2 = .err (.CorruptedData ("Data chunk "
        ++ dataChunkFilename entry.data_chunk.page entry.data_chunk.id
        ++ " not found, but index contains it")) ∧
    c.1.storage.filter = BloomFilter.remove H s.storage.filter key ∧
    alGet key c.1.storage.index = none ∧
    alGet key c.1.memtable = none ∧
    c.1.wal = s.wal := by
  have hread : Storage.get_tuple_by_offset_and_data_chunk
      { s.storage with filter := BloomFilter.remove H s.storage.filter key, index := alErase key s.storage.index }
      entry.offset entry.data_chunk
      = .error (.CorruptedData ("Data chunk "
          ++ dataChunkFilename entry.data_chunk.page entry.data_chunk.id
          ++ " not found, but index contains it")) := by
    rw [Storage.get_tuple_by_offset_and_data_chunk]
    simp only [hmiss]
  have hrem : Storage.remove_tuple H s.storage key
      = ({ s.storage with filter := BloomFilter.remove H s.storage.filter key, index := alErase key s.storage.index },
         .err (.CorruptedData ("Data chunk "
            ++ dataChunkFilename entry.data_chunk.page entry.data_chunk.id
            ++ " not found, but index contains it"))) := by
    rw [Storage.remove_tuple, hc]
    rw [if_neg (by simp)]
    simp only [hidx, hread]
  have hone : Collection.executeOne H valLen s (.Delete key)
      = ({ s with
            memtable := alErase key s.memtable
            storage := { s.storage with filter := BloomFilter.remove H s.storage.filter key, index := alErase key s.storage.index } },
         .err (.CorruptedData ("Data chunk "
            ++ dataChunkFilename entry.data_chunk.page entry.data_chunk.id
            ++ " not found, but index contains it"))) := by
    rw [Collection.executeOne, hrem]
  have hexec : Collection.execute_operation H valLen s [.Delete key]
      = ({ s with
            memtable := alErase key s.memtable
            storage := { s.storage with filter := BloomFilter.remove H s.storage.filter key, index := alErase key s.storage.index } },
         .err (.CorruptedData ("Data chunk "
            ++ dataChunkFilename entry.data_chunk.page entry.data_chunk.id
            ++ " not found, but index contains it"))) := by
    rw [Collection.execute_operation, hone]
  have hcom : Collection.commit H valLen logLen s
      { status := .Active, data := [.Delete key], tx_id := tid }
      = ({ s with
            memtable := alErase key s.memtable
            storage := { s.storage with filter := BloomFilter.remove H s.storage.filter key, index := alErase key s.storage.index } },
         { status := .Active, data := [.Delete key], tx_id := tid },
         .err (.CorruptedData ("Data chunk "
            ++ dataChunkFilename entry.data_chunk.page entry.data_chunk.id
            ++ " not found, but index contains it"))) := by
    rw [Collection.commit, if_neg (by simp)]
    rw [hexec]
  intro c
  rw [show c = ({ s with
            memtable := alErase key s.memtable
            storage := { s.storage with filter := BloomFilter.remove H s.storage.filter key, index := alErase key s.storage.index } },
         { status := .Active, data := [.Delete key], tx_id := tid },
         .err (.CorruptedData ("Data chunk "
            ++ dataChunkFilename entry.data_chunk.page entry.data_chunk.id
            ++ " not found, but index contains it"))) from hcom]
  exact ⟨rfl, rfl, alGet_alErase_self _ _, alGet_alErase_self _ _, rfl⟩

/-- Witness for C10 on a state whose index references a missing chunk. -/
theorem C10_delete_failure_keeps_removals_witness :
    let c := Collection.commit exH exValLen exLogLen exBroken
      { status := .Active, data := [.Delete "k"], tx_id := 3 }
    c.2.2 = .err (.CorruptedData ("Data chunk " ++ dataChunkFilename 0 0
        ++ " not found, but index contains it")) ∧
    c.1.storage.filter = BloomFilter.remove exH exBroken.storage.filter "k" ∧
    alGet "k" c.1.storage.index = none ∧
    alGet "k" c.1.memtable = none ∧
    c.1.wal = exBroken.wal :=
  C10_delete_failure_keeps_removals exH exValLen exLogLen exBroken "k" 3
    { offset := 0, data_chunk := { page := 0, id := 0 } } (by decide) rfl rfl

/-! ### Claim C3 -/

/-- C3 (amended): the filter ⊇ index invariant is preserved by `insert_tuple`
(filter and index both gain the key, other keys keep their bits), and
`remove_tuple k1` keeps a different indexed key `k2` present in the filter —
and untouched in the index — WHEN the probed bit positions of `k1` and `k2`
are disjoint; but `BloomFilter::remove` clears shared bits, so a committed
`Delete(k1)` CAN make the filter report absent a key `k2` that remains in
the index when their positions collide (see the counterexample): the
claimed invariant does not hold after every sequence of committed
operations. -/
theorem C3_amended_filter_index {V : Type} (H : String → Nat → Nat)
    (valLen : V → Nat) (s : StorageState V) (k1 k2 : String) (value : V)
    (hm : 1 ≤ s.filter.bitvec.length)
    (hc2 : Storage.contains H s k2 = true) (hne : k2 ≠ k1)
    (hdisj : ∀ p ∈ BloomFilter.positions H s.filter k2,
      p ∉ BloomFilter.positions H s.filter k1) :
    Storage.contains H (Storage.insert_tuple H valLen s k1 value).1 k2 = true ∧
    Storage.contains H (Storage.remove_tuple H s k1).1 k2 = true ∧
    alGet k2 (Storage.remove_tuple H s k1).1.index = alGet k2 s.index := by
  have hgoal : ∀ t : StorageState V,
      t.filter = BloomFilter.remove H s.filter k1 →
      t.index = alErase k1 s.index →
      Storage.contains H t k2 = true ∧ alGet k2 t.index = alGet k2 s.index := by
    intro t hf hi
    constructor
    · rw [Storage.contains, hf]
      exact contains_remove_disjoint H s.filter k1 k2 hm hc2 hdisj
    · rw [hi]
      exact alGet_alErase_ne k1 k2 s.index hne
  have hrm : Storage.contains H (Storage.remove_tuple H s k1).1 k2 = true ∧
      alGet k2 (Storage.remove_tuple H s k1).1.index = alGet k2 s.index := by
    rw [Storage.remove_tuple]
    cases h1 : Storage.contains H s k1 with
    | false =>
      rw [if_pos (by simp [h1])]
      exact ⟨hc2, rfl⟩
    | true =>
      rw [if_neg (by simp [h1])]
      cases halg : alGet k1 s.index with
      | none => exact hgoal _ rfl rfl
      | some entry =>
        cases hread : Storage.get_tuple_by_offset_and_data_chunk
            { s with filter := BloomFilter.remove H s.filter k1, index := alErase k1 s.index }
            entry.offset entry.data_chunk with
        | error e => simp only [hread]; exact hgoal _ rfl rfl
        | ok o =>
          cases o with
          | none => simp only [hread]; exact hgoal _ rfl rfl
          | some v => simp only [hread]; exact hgoal _ rfl rfl
  refine ⟨?_, hrm.1, hrm.2⟩
  rw [Storage.insert_tuple]
  cases h1 : BloomFilter.contains H s.filter k1 with
  | true =>
    rw [if_pos (by simp [h1])]
    exact hc2
  | false =>
    rw [if_neg (by simp [h1])]
    rw [Storage.contains]
    exact contains_insert_mono H s.filter k1 k2 hc2

/-- Witness for C3 (amended): under `exHd` the key "a" probes bits 0,1 and
"q" probes bits 4,5 — disjoint — so after inserting "a", inserting or
deleting "q" keeps "a" present and indexed. -/
theorem C3_amended_filter_index_witness :
    Storage.contains exHd (Storage.insert_tuple exHd exValLen
      (Collection.executeOne exHd exValLen exFresh2 (.Insert "a" "x")).1.storage
      "q" "y").1 "a" = true ∧
    Storage.contains exHd (Storage.remove_tuple exHd
      (Collection.executeOne exHd exValLen exFresh2 (.Insert "a" "x")).1.storage
      "q").1 "a" = true ∧
    alGet "a" (Storage.remove_tuple exHd
      (Collection.executeOne exHd exValLen exFresh2 (.Insert "a" "x")).1.storage
      "q").1.index
      = alGet "a"
        (Collection.executeOne exHd exValLen exFresh2 (.Insert "a" "x")).1.storage.index :=
  C3_amended_filter_index exHd exValLen
    (Collection.executeOne exHd exValLen exFresh2 (.Insert "a" "x")).1.storage
    "q" "a" "y" (by decide) (by decide) (by decide) (by decide)

/-- C3 counterexample: under the colliding hash `exHc` (the key "a" probes
bits 0,1 and "b" probes bits 1,2 in a one-byte filter), committing
`Insert("a")`, `Insert("b")`, then `Delete("a")` all succeeds, leaves "b" in
the index, yet the filter now reports "b" absent — a false negative for an
indexed key, refuting the claimed invariant. -/
theorem C3_counterexample :
    let run := commitList exHc exValLen exLogLen exFresh2
      [(1, [.Insert "a" "x"]), (2, [.Insert "b" "y"]), (3, [.Delete "a"])]
    run.2 = true ∧
    (alGet "b" run.1.storage.index).isSome = true ∧
    Collection.contains exHc run.1 "b" = false := by
  decide

/-! ### Memtable tracking through successful commits (for C1/C2) -/

/-- A successfully executed operation changes the memtable entry of each key
exactly as the spec-side `stepWrite` does. -/
theorem executeOne_ok_memtable {V : Type} (H : String → Nat → Nat)
    (valLen : V → Nat) (s : CollState V) (op : Operation V) (s' : CollState V)
    (w : WalOperation V) (h : Collection.executeOne H valLen s op = (s', .ok w))
    (key : String) :
    alGet key s'.memtable = stepWrite key (alGet key s.memtable) op := by
  cases op with
  | Insert k v =>
    rcases hins : Storage.insert_tuple H valLen s.storage k v with ⟨st, r⟩
    cases r with
    | ok u =>
      simp only [Collection.executeOne, hins, Prod.mk.injEq] at h
      obtain ⟨hA, _⟩ := h
      rw [← hA]
      show alGet key (alSet k v s.memtable) = stepWrite key (alGet key s.memtable) _
      rw [stepWrite]
      by_cases hkk : k = key
      · rw [if_pos hkk, hkk, alGet_alSet_self]
      · rw [if_neg hkk, alGet_alSet_ne k key v s.memtable (fun hh => hkk hh.symm)]
    | err e => simp [Collection.executeOne, hins] at h
    | panics msg => simp [Collection.executeOne, hins] at h
  | Update k v =>
    rcases hupd : Storage.update_tuple H valLen s.storage k v with ⟨st, r⟩
    cases r with
    | ok u =>
      simp only [Collection.executeOne, hupd, Prod.mk.injEq] at h
      obtain ⟨hA, _⟩ := h
      rw [← hA]
      show alGet key (alSet k v s.memtable) = stepWrite key (alGet key s.memtable) _
      rw [stepWrite]
      by_cases hkk : k = key
      · rw [if_pos hkk, hkk, alGet_alSet_self]
      · rw [if_neg hkk, alGet_alSet_ne k key v s.memtable (fun hh => hkk hh.symm)]
    | err e => simp [Collection.executeOne, hupd] at h
    | panics msg => simp [Collection.executeOne, hupd] at h
  | Delete k =>
    rcases hrm : Storage.remove_tuple H s.storage k with ⟨st, r⟩
    cases r with
    | ok u =>
      simp only [Collection.executeOne, hrm, Prod.mk.injEq] at h
      obtain ⟨hA, _⟩ := h
      rw [← hA]
      show alGet key (alErase k s.memtable) = stepWrite key (alGet key s.memtable) _
      rw [stepWrite]
      by_cases hkk : k = key
      · rw [if_pos hkk, hkk, alGet_alErase_self]
      · rw [if_neg hkk, alGet_alErase_ne k key s.memtable (fun hh => hkk hh.symm)]
    | err e => simp [Collection.executeOne, hrm] at h
    | panics msg => simp [Collection.executeOne, hrm] at h
  | Drop =>
    simp only [Collection.executeOne, Storage.clear, Prod.mk.injEq] at h
    obtain ⟨hA, _⟩ := h
    rw [← hA]
    rfl

/-- A successful `execute_operation` run changes the memtable entry of each
key exactly as the spec-side `lastWrite` fold does. -/
theorem execute_operation_ok_memtable {V : Type} (H : String → Nat → Nat)
    (valLen : V → Nat) (ops : List (Operation V)) :
    ∀ (s s' : CollState V) (ws : List (WalOperation V)),
    Collection.execute_operation H valLen s ops = (s', .ok ws) →
    ∀ key, alGet key s'.memtable = lastWrite key ops (alGet key s.memtable) := by
  induction ops with
  | nil =>
    intro s s' ws h key
    simp only [Collection.execute_operation, Prod.mk.injEq] at h
    obtain ⟨hA, _⟩ := h
    rw [← hA]
    rfl
  | cons op rest ih =>
    intro s s' ws h key
    rcases h1 : Collection.executeOne H valLen s op with ⟨s1, r1⟩
    cases r1 with
    | ok w =>
      rcases h2 : Collection.execute_operation H valLen s1 rest with ⟨s2, r2⟩
      cases r2 with
      | ok ws2 =>
        simp only [Collection.execute_operation, h1, h2, Prod.mk.injEq] at h
        obtain ⟨hA, _⟩ := h
        rw [← hA]
        rw [lastWrite, List.foldl_cons]
        rw [← executeOne_ok_memtable H valLen s op s1 w h1 key]
        exact ih s1 s2 ws2 h2 key
      | err e => simp [Collection.execute_operation, h1, h2] at h
      | panics msg => simp [Collection.execute_operation, h1, h2] at h
    | err e => simp [Collection.execute_operation, h1] at h
    | panics msg => simp [Collection.execute_operation, h1] at h

/-- A successful commit changes the memtable entry of each key exactly as the
spec-side `lastWrite` fold over the transaction's operations does. -/
theorem commit_ok_memtable {V : Type} (H : String → Nat → Nat) (valLen : V → Nat)
    (logLen : TransactionLog V → Nat) (s : CollState V) (tx : Transaction V)
    (s' : CollState V) (tx' : Transaction V)
    (h : Collection.commit H valLen logLen s tx = (s', tx', .ok ())) (key : String) :
    alGet key s'.memtable = lastWrite key tx.data (alGet key s.memtable) := by
  by_cases hst : tx.status = .Committed
  · simp [Collection.commit, if_pos hst] at h
  · rcases hex : Collection.execute_operation H valLen s tx.data with ⟨s1, r⟩
    cases r with
    | ok ws =>
      simp only [Collection.commit, if_neg hst, hex, Prod.mk.injEq] at h
      obtain ⟨hA, _⟩ := h
      rw [← hA]
      exact execute_operation_ok_memtable H valLen tx.data s s1 ws hex key
    | err e => simp [Collection.commit, if_neg hst, hex] at h
    | panics msg => simp [Collection.commit, if_neg hst, hex] at h

/-- Through a history in which every commit succeeded, the memtable entry of
each key equals the spec-side last write over the concatenated operations. -/
theorem commitList_ok_memtable {V : Type} (H : String → Nat → Nat)
    (valLen : V → Nat) (logLen : TransactionLog V → Nat)
    (hist : List (Nat × List (Operation V))) :
    ∀ s : CollState V, (commitList H valLen logLen s hist).2 = true →
    ∀ key, alGet key (commitList H valLen logLen s hist).1.memtable
      = lastWrite key (hist.map Prod.snd).flatten (alGet key s.memtable) := by
  induction hist with
  | nil => intro s _ key; rfl
  | cons p rest ih =>
    rcases p with ⟨txid, ops⟩
    intro s h key
    rcases hc : Collection.commit H valLen logLen s
      { status := .Active, data := ops, tx_id := txid } with ⟨s1, tx1, r⟩
    simp only [commitList, hc] at h ⊢
    cases r with
    | ok u =>
      cases u
      simp only [Bool.true_and] at h
      rw [List.map_cons, List.flatten_cons, lastWrite, List.foldl_append]
      rw [show List.foldl (stepWrite key) (alGet key s.memtable) ops
          = lastWrite key ops (alGet key s.memtable) from rfl]
      rw [← commit_ok_memtable H valLen logLen s
        { status := .Active, data := ops, tx_id := txid } s1 tx1 hc key]
      exact ih s1 h key
    | err e => simp at h
    | panics msg => simp at h

/-! ### Claim C2 -/

/-- C2 (amended): over a session of commits from a fresh collection in which
EVERY commit succeeded, for any key whose last write by the committed
operations is `some v` (inserted and neither deleted nor dropped since), if
the filter still reports the key present then `get` returns `Ok(Some v)` —
served from the memtable, which caches every committed write; and whenever a
key misses the memtable (with the filter reporting present), `get` resolves
it through the index and a chunk read (`Storage::get_tuple`). Two
corrections to the claim as stated: a FAILED commit also mutates the
memtable and changes what `get` returns (see the counterexample), and the
filter can deny an indexed key after unrelated deletes (claim C3), so filter
presence is a hypothesis here. -/
theorem C2_amended_get_last_committed {V : Type} (H : String → Nat → Nat)
    (valLen : V → Nat) (logLen : TransactionLog V → Nat) (m hk : Nat)
    (hist : List (Nat × List (Operation V))) (key : String) (v : V)
    (hrun : (commitList H valLen logLen (freshState V m hk) hist).2 = true)
    (hlast : lastWrite key (hist.map Prod.snd).flatten none = some v)
    (hfilter : Collection.contains H
      (commitList H valLen logLen (freshState V m hk) hist).1 key = true) :
    Collection.get H (commitList H valLen logLen (freshState V m hk) hist).1 key
      = .ok (some v) ∧
    (∀ t : CollState V, alGet key t.memtable = none →
      Collection.contains H t key = true →
      Collection.get H t key = Storage.get_tuple t.storage key) := by
  constructor
  · have hmem : alGet key
        (commitList H valLen logLen (freshState V m hk) hist).1.memtable = some v := by
      rw [commitList_ok_memtable H valLen logLen hist _ hrun key]
      exact hlast
    rw [Collection.get, if_neg (by simp [hfilter]), hmem]
  · intro t hmemt hcont
    rw [Collection.get, if_neg (by simp [hcont]), hmemt]
    cases hg : Storage.get_tuple t.storage key with
    | error e => rfl
    | ok o => cases o with
      | none => rfl
      | some value => rfl

/-- Witness for C2 on a fresh collection after one committed insert. -/
theorem C2_amended_get_last_committed_witness :
    Collection.get exH (commitList exH exValLen exLogLen (freshState String 1 1)
      [(1, [.Insert "k" "v"])]).1 "k" = .ok (some "v") ∧
    (∀ t : CollState String, alGet "k" t.memtable = none →
      Collection.contains exH t "k" = true →
      Collection.get exH t "k" = Storage.get_tuple t.storage "k") :=
  C2_amended_get_last_committed exH exValLen exLogLen 1 1
    [(1, [.Insert "k" "v"])] "k" "v" (by decide) (by decide) (by decide)

/-- C2 counterexample: the key "k" is inserted by a committed transaction and
never deleted; the only committed write for it is "v"; yet after a second,
FAILED insert of "vbad" (AlreadyExists), `get("k")` returns `Some("vbad")` —
not the last value written by a committed Insert or Update. -/
theorem C2_counterexample :
    (Collection.commit exH exValLen exLogLen exFresh
      { status := .Active, data := [.Insert "k" "v"], tx_id := 1 }).2.2 = .ok () ∧
    (Collection.commit exH exValLen exLogLen
      (Collection.commit exH exValLen exLogLen exFresh
        { status := .Active, data := [.Insert "k" "v"], tx_id := 1 }).1
      { status := .Active, data := [.Insert "k" "vbad"], tx_id := 2 }).2.2
      = .err (.AlreadyExists "k") ∧
    ¬ Collection.get exH
      (Collection.commit exH exValLen exLogLen
        (Collection.commit exH exValLen exLogLen exFresh
          { status := .Active, data := [.Insert "k" "v"], tx_id := 1 }).1
        { status := .Active, data := [.Insert "k" "vbad"], tx_id := 2 }).1 "k"
      = .ok (some "v") ∧
    Collection.get exH
      (Collection.commit exH exValLen exLogLen
        (Collection.commit exH exValLen exLogLen exFresh
          { status := .Active, data := [.Insert "k" "v"], tx_id := 1 }).1
        { status := .Active, data := [.Insert "k" "vbad"], tx_id := 2 }).1 "k"
      = .ok (some "vbad") := by
  decide

/-! ### Single-insert commit shapes (for C1) -/

/-- Committing `[Insert key v]` when the filter does not contain `key`:
success, filter gains the key, memtable caches the value. -/
theorem commit_insert_notcontained {V : Type} (H : String → Nat → Nat)
    (valLen : V → Nat) (logLen : TransactionLog V → Nat) (s : CollState V)
    (key : String) (v : V) (id : Nat)
    (h : BloomFilter.contains H s.storage.filter key = false) :
    (Collection.commit H valLen logLen s
      { status := .Active, data := [.Insert key v], tx_id := id }).2.2 = .ok () ∧
    (Collection.commit H valLen logLen s
      { status := .Active, data := [.Insert key v], tx_id := id }).1.storage.filter
      = BloomFilter.insert H s.storage.filter key ∧
    (Collection.commit H valLen logLen s
      { status := .Active, data := [.Insert key v], tx_id := id }).1.memtable
      = alSet key v s.memtable := by
  have hins : Storage.insert_tuple H valLen s.storage key v
      = ({ s.storage with
            filter := BloomFilter.insert H s.storage.filter key
            index := alSet key { offset := s.storage.fileLen, data_chunk := { page := s.storage.filePage, id := s.storage.fileId } } s.storage.index
            files := s.storage.appendValue valLen v }, .ok ()) := by
    rw [Storage.insert_tuple, if_neg (by simp [h])]
  have hone : Collection.executeOne H valLen s (.Insert key v)
      = ({ s with
            memtable := alSet key v s.memtable
            storage := { s.storage with
              filter := BloomFilter.insert H s.storage.filter key
              index := alSet key { offset := s.storage.fileLen, data_chunk := { page := s.storage.filePage, id := s.storage.fileId } } s.storage.index
              files := s.storage.appendValue valLen v } }, .ok (.Insert key v)) := by
    rw [Collection.executeOne, hins]
  have hexec : Collection.execute_operation H valLen s [.Insert key v]
      = ({ s with
            memtable := alSet key v s.memtable
            storage := { s.storage with
              filter := BloomFilter.insert H s.storage.filter key
              index := alSet key { offset := s.storage.fileLen, data_chunk := { page := s.storage.filePage, id := s.storage.fileId } } s.storage.index
              files := s.storage.appendValue valLen v } }, .ok [.Insert key v]) := by
    simp only [Collection.execute_operation, hone]
  rw [Collection.commit, if_neg (by simp), hexec]
  exact ⟨rfl, rfl, rfl⟩

/-- Committing `[Insert key v2]` when the filter does contain `key`:
`AlreadyExists` error, storage untouched, but the memtable has already been
overwritten with the new value. -/
theorem commit_insert_contained {V : Type} (H : String → Nat → Nat)
    (valLen : V → Nat) (logLen : TransactionLog V → Nat) (s : CollState V)
    (key : String) (v2 : V) (id : Nat)
    (h : BloomFilter.contains H s.storage.filter key = true) :
    (Collection.commit H valLen logLen s
      { status := .Active, data := [.Insert key v2], tx_id := id }).2.2
      = .err (.AlreadyExists key) ∧
    (Collection.commit H valLen logLen s
      { status := .Active, data := [.Insert key v2], tx_id := id }).1.storage
      = s.storage ∧
    (Collection.commit H valLen logLen s
      { status := .Active, data := [.Insert key v2], tx_id := id }).1.memtable
      = alSet key v2 s.memtable := by
  have hins : Storage.insert_tuple H valLen s.storage key v2
      = (s.storage, .err (.AlreadyExists key)) := by
    rw [Storage.insert_tuple, if_pos (by simp [h])]
  have hone : Collection.executeOne H valLen s (.Insert key v2)
      = ({ s with memtable := alSet key v2 s.memtable, storage := s.storage },
         .err (.AlreadyExists key)) := by
    rw [Collection.executeOne, hins]
  have hexec : Collection.execute_operation H valLen s [.Insert key v2]
      = ({ s with memtable := alSet key v2 s.memtable, storage := s.storage },
         .err (.AlreadyExists key)) := by
    rw [Collection.execute_operation, hone]
  rw [Collection.commit, if_neg (by simp), hexec]
  exact ⟨rfl, rfl, rfl⟩

/-- `get` returns the memtable copy when the filter reports the key present
and the memtable holds it. -/
theorem get_memtable_hit {V : Type} (H : String → Nat → Nat) (s : CollState V)
    (key : String) (v : V)
    (hc : BloomFilter.contains H s.storage.filter key = true)
    (hmem : alGet key s.memtable = some v) :
    Collection.get H s key = .ok (some v) := by
  rw [Collection.get,
    if_neg (by simp [Collection.contains, Storage.contains, hc]), hmem]

/-! ### Claim C1 -/

/-- C1 (amended): on a fresh collection, committing `Insert(k,v)` succeeds
and a second transaction `Insert(k,v2)` fails with `AlreadyExists(k)` as the
claim says; but `execute_operation` writes the memtable BEFORE the storage
rejects the insert, so afterwards `get(k)` returns `Some(v2)` — the failed
insert is visible, contrary to the claim that `get(k)` still returns
`Some(v)`. (Holds for every hash function and positive filter geometry.) -/
theorem C1_amended_failed_insert_visible {V : Type} (H : String → Nat → Nat)
    (valLen : V → Nat) (logLen : TransactionLog V → Nat) (m hk : Nat)
    (hm : 1 ≤ m) (hhk : 1 ≤ hk) (key : String) (v v2 : V) (id1 id2 : Nat) :
    (Collection.commit H valLen logLen (freshState V m hk)
      { status := .Active, data := [.Insert key v], tx_id := id1 }).2.2 = .ok () ∧
    (Collection.commit H valLen logLen
      (Collection.commit H valLen logLen (freshState V m hk)
        { status := .Active, data := [.Insert key v], tx_id := id1 }).1
      { status := .Active, data := [.Insert key v2], tx_id := id2 }).2.2
      = .err (.AlreadyExists key) ∧
    Collection.get H
      (Collection.commit H valLen logLen
        (Collection.commit H valLen logLen (freshState V m hk)
          { status := .Active, data := [.Insert key v], tx_id := id1 }).1
        { status := .Active, data := [.Insert key v2], tx_id := id2 }).1 key
      = .ok (some v2) := by
  have h0 : BloomFilter.contains H (freshState V m hk).storage.filter key = false :=
    contains_fresh_false H m hk key hhk
  obtain ⟨ha1, hb1, _⟩ :=
    commit_insert_notcontained H valLen logLen (freshState V m hk) key v id1 h0
  have h1 : BloomFilter.contains H
      (Collection.commit H valLen logLen (freshState V m hk)
        { status := .Active, data := [.Insert key v], tx_id := id1 }).1.storage.filter
      key = true := by
    rw [hb1]
    exact contains_insert_self H _ key (by simpa [freshState] using hm)
  obtain ⟨ha2, hb2, hc2⟩ :=
    commit_insert_contained H valLen logLen
      (Collection.commit H valLen logLen (freshState V m hk)
        { status := .Active, data := [.Insert key v], tx_id := id1 }).1
      key v2 id2 h1
  refine ⟨ha1, ha2, ?_⟩
  apply get_memtable_hit
  · rw [hb2]
    exact h1
  · rw [hc2]
    exact alGet_alSet_self _ _ _

/-- Witness for C1 (amended) at a concrete fresh collection. -/
theorem C1_amended_failed_insert_visible_witness :
    (Collection.commit exH exValLen exLogLen (freshState String 1 1)
      { status := .Active, data := [.Insert "k" "v"], tx_id := 1 }).2.2 = .ok () ∧
    (Collection.commit exH exValLen exLogLen
      (Collection.commit exH exValLen exLogLen (freshState String 1 1)
        { status := .Active, data := [.Insert "k" "v"], tx_id := 1 }).1
      { status := .Active, data := [.Insert "k" "v2"], tx_id := 2 }).2.2
      = .err (.AlreadyExists "k") ∧
    Collection.get exH
      (Collection.commit exH exValLen exLogLen
        (Collection.commit exH exValLen exLogLen (freshState String 1 1)
          { status := .Active, data := [.Insert "k" "v"], tx_id := 1 }).1
        { status := .Active, data := [.Insert "k" "v2"], tx_id := 2 }).1 "k"
      = .ok (some "v2") :=
  C1_amended_failed_insert_visible exH exValLen exLogLen 1 1 (by decide) (by decide)
    "k" "v" "v2" 1 2

/-- C1 counterexample: after the failed second insert, `get("k")` does NOT
return `Some("v")` (it returns `Some("v2")` from the memtable), refuting the
claimed outcome of scenario 4. -/
theorem C1_counterexample :
    (Collection.commit exH exValLen exLogLen
      (Collection.commit exH exValLen exLogLen exFresh
        { status := .Active, data := [.Insert "k" "v"], tx_id := 1 }).1
      { status := .Active, data := [.Insert "k" "v2"], tx_id := 2 }).2.2
      = .err (.AlreadyExists "k") ∧
    ¬ Collection.get exH
      (Collection.commit exH exValLen exLogLen
        (Collection.commit exH exValLen exLogLen exFresh
          { status := .Active, data := [.Insert "k" "v"], tx_id := 1 }).1
        { status := .Active, data := [.Insert "k" "v2"], tx_id := 2 }).1 "k"
      = .ok (some "v") := by
  decide
